import Mathlib

/-!
Shallow embedding of the read path of a content-addressed object database:
the all-objects iterator over a store snapshot
(git-odb/src/store/general/iter.rs) and the pack index verification
functions (git-pack/src/index/verify.rs).

Pure data is modelled directly; the loose store and the pack index are
modelled by the sequences they produce, and panics (Rust `expect`) are
modelled as an explicit result.
-/

set_option linter.unusedVariables false

/-- Object identifiers (git_hash::ObjectId), abstracted to a number. -/
abbrev ObjectId := Nat

/-- The error type of the loose object iterator (loose::iter::Error), abstract. -/
abbrev LooseError := Nat

/-- One item of iteration: Result<ObjectId, loose::iter::Error>. -/
inductive LooseItem where
  | ok (id : ObjectId)
  | err (e : LooseError)
deriving DecidableEq, Repr

/-- handle::IndexLookup: one pack index, exposing its ordered object ids. -/
structure IndexLookup where
  entries : List ObjectId
deriving DecidableEq, Repr

/-- IndexLookup::num_objects(). -/
def IndexLookup.num_objects (l : IndexLookup) : Nat := l.entries.length

/-- IndexLookup::oid_at_index(i); callers only pass indices below num_objects. -/
def IndexLookup.oid_at_index (l : IndexLookup) (i : Nat) : ObjectId := l.entries.getD i 0

/-- loose::Store: modelled by the sequence its iter() produces. -/
structure LooseStore where
  iterSeq : List LooseItem
deriving DecidableEq, Repr

/-- loose::Store::iter(). -/
def LooseStore.iter (s : LooseStore) : List LooseItem := s.iterSeq

/-- A fully loaded store snapshot: ranked pack indices plus loose stores. -/
structure Snapshot where
  indices : List IndexLookup
  loose_dbs : List LooseStore
deriving DecidableEq, Repr

/-- The iterator state machine of store::general::iter::State. -/
inductive State where
  | pack (index_iter : List IndexLookup) (index : IndexLookup)
      (entry_index : Nat) (num_objects : Nat)
  | loose (iter : List LooseItem) (index : Nat)
  | depleted
deriving DecidableEq, Repr

/-- The iterator over all objects of a store (store::general::iter::AllObjects). -/
structure AllObjects where
  state : State
  num_objects : Nat
  loose_dbs : List LooseStore
deriving DecidableEq, Repr

/-- Largest value of a 64-bit usize. -/
def USIZE_MAX : Nat := 2 ^ 64 - 1

/-- usize::saturating_add. -/
def satAddUsize (a b : Nat) : Nat := min (a + b) USIZE_MAX

/-- AllObjects::new on a fully loaded snapshot (the eager index-loading loop has
already run).  The `none` result models the panic of
`loose_dbs.get(0).expect("at least one loose db")` when there is no pack index
and no loose store. -/
def AllObjects.new (s : Snapshot) : Option AllObjects :=
  let packed_objects :=
    s.indices.foldl (fun dbc index => satAddUsize dbc index.num_objects) 0
  match s.indices with
  | index :: index_iter =>
      some { state := State.pack index_iter index 0 index.num_objects,
             num_objects := packed_objects, loose_dbs := s.loose_dbs }
  | [] =>
      match s.loose_dbs[0]? with
      | some db =>
          some { state := State.loose db.iter 0,
                 num_objects := packed_objects, loose_dbs := s.loose_dbs }
      | none => none

/-- Outcome of one call to AllObjects::next.  `fuelOut` is an artefact of the
fuel-based unfolding and is proved unreachable; `panicked` models the
`expect("at least one loose odb")` panic; `yield`/`done` are `Some`/`None`. -/
inductive StepResult where
  | fuelOut
  | panicked
  | yield (item : LooseItem) (it : AllObjects)
  | done (it : AllObjects)
deriving DecidableEq, Repr

/-- The number of not yet exhausted object sources in front of the iterator:
remaining pack indices (current one included) plus remaining loose stores.
Each recursive call inside AllObjects::next passes one such source. -/
def AllObjects.remainingSources (a : AllObjects) : Nat :=
  match a.state with
  | State.pack index_iter _ _ _ => index_iter.length + 1 + a.loose_dbs.length
  | State.loose _ i => a.loose_dbs.length - i
  | State.depleted => 0

/-- AllObjects::next, with explicit fuel bounding the internal recursion the
Rust source performs on `self.next()` after a state transition. -/
def nextF : Nat → AllObjects → StepResult
  | 0, _ => StepResult.fuelOut
  | f + 1, a =>
    match a.state with
    | State.depleted => StepResult.done a
    | State.pack index_iter index entry_index num_objects =>
      if entry_index < num_objects then
        StepResult.yield (LooseItem.ok (index.oid_at_index entry_index))
          { a with state := State.pack index_iter index (entry_index + 1) num_objects }
      else
        match index_iter with
        | new_index :: rest =>
            nextF f { a with state := State.pack rest new_index 0 new_index.num_objects }
        | [] =>
            match a.loose_dbs[0]? with
            | some db => nextF f { a with state := State.loose db.iter 0 }
            | none => StepResult.panicked
    | State.loose iter i =>
      match iter with
      | id :: rest => StepResult.yield id { a with state := State.loose rest i }
      | [] =>
          match a.loose_dbs[i + 1]? with
          | some db => nextF f { a with state := State.loose db.iter (i + 1) }
          | none => StepResult.done { a with state := State.depleted }

/-- The fuel that always suffices for one call to AllObjects::next. -/
def sourceBound (a : AllObjects) : Nat := a.remainingSources + 1

/-- AllObjects::next. -/
def AllObjects.next (a : AllObjects) : StepResult := nextF (sourceBound a) a

/-- Iterator::size_hint for AllObjects. -/
def AllObjects.size_hint (a : AllObjects) : Nat × Option Nat := (a.num_objects, none)

/-- Run the iterator to completion, collecting every yielded item; `none` when
the outer fuel runs out or a call panics. -/
def collectF : Nat → AllObjects → Option (List LooseItem)
  | 0, _ => none
  | f + 1, a =>
    match AllObjects.next a with
    | StepResult.fuelOut => none
    | StepResult.panicked => none
    | StepResult.done _ => some []
    | StepResult.yield item b => (collectF f b).map (fun l => item :: l)

/-- Whether driving the iterator panics within the given number of calls. -/
def panicsF : Nat → AllObjects → Bool
  | 0, _ => false
  | f + 1, a =>
    match AllObjects.next a with
    | StepResult.panicked => true
    | StepResult.yield _ b => panicsF f b
    | _ => false

/-! ## Pack index verification (git-pack/src/index/verify.rs) -/

/-- A raw byte; values used by the source are below 256. -/
abbrev Byte := Nat

/-- git_object::Kind. -/
inductive Kind where
  | Blob
  | Tree
  | Commit
  | Tag
deriving DecidableEq, Repr

/-- index::Entry, as handed to verify_entry; only the oid is read there. -/
structure IndexEntry where
  oid : ObjectId
  pack_offset : Nat
  crc32 : Option Nat
deriving DecidableEq, Repr

/-- verify::Mode. -/
inductive Mode where
  | HashCrc32
  | HashCrc32Decode
  | HashCrc32DecodeEncode
deriving DecidableEq, Repr

/-- verify::integrity::Error, parametric in the decode error type
(git_object::decode::Error is an external collaborator). -/
inductive IntegrityError (E : Type) where
  | ObjectDecode (source : E) (kind : Kind) (id : ObjectId)
  | ObjectEncodeMismatch (kind : Kind) (id : ObjectId)
      (expected : List Byte) (actual : List Byte)
deriving DecidableEq, Repr

/-- The bytes of the ASCII sequence 100664. -/
def mode100664 : List Byte := [49, 48, 48, 54, 54, 52]

/-- The bytes of the ASCII sequence 100640. -/
def mode100640 : List Byte := [49, 48, 48, 54, 52, 48]

/-- bstr substring search, `buf.find(needle).is_some()`. -/
def containsSeq (needle : List Byte) : List Byte → Bool
  | [] => needle.isEmpty
  | b :: rest => needle.isPrefixOf (b :: rest) || containsSeq needle rest

/-- index::File::verify_entry.  The object domain model is external: `decode`
stands for git_object::ObjectRef::from_bytes at a kind, `encode` for
WriteTo::write_to into the cleared scratch buffer.  The progress sink is
modelled by the list of ids for which an informational message was pushed.
Returns the new scratch buffer and the new progress messages. -/
def verify_entry {E O : Type} (decode : Kind → List Byte → Except E O)
    (encode : O → List Byte) (mode : Mode) (encode_buf : List Byte)
    (object_kind : Kind) (buf : List Byte) (index_entry : IndexEntry)
    (progress : List ObjectId) :
    Except (IntegrityError E) (List Byte × List ObjectId) :=
  match mode with
  | Mode.HashCrc32 => Except.ok (encode_buf, progress)
  | Mode.HashCrc32Decode | Mode.HashCrc32DecodeEncode =>
    match object_kind with
    | Kind.Blob => Except.ok (encode_buf, progress)
    | _ =>
      match decode object_kind buf with
      | Except.error err =>
          Except.error (IntegrityError.ObjectDecode err object_kind index_entry.oid)
      | Except.ok object =>
        match mode with
        | Mode.HashCrc32DecodeEncode =>
          let encode_buf := encode object
          if encode_buf ≠ buf then
            if object_kind = Kind.Tree then
              if containsSeq mode100664 buf || containsSeq mode100640 buf then
                Except.ok (encode_buf, progress ++ [index_entry.oid])
              else
                Except.error (IntegrityError.ObjectEncodeMismatch object_kind
                  index_entry.oid buf encode_buf)
            else
              Except.error (IntegrityError.ObjectEncodeMismatch object_kind
                index_entry.oid buf encode_buf)
          else Except.ok (encode_buf, progress)
        | _ => Except.ok (encode_buf, progress)

/-- index::File: the mapped bytes of the index file and the width of the
configured digest (hash_len). -/
structure IndexFile where
  data : List Byte
  hash_len : Nat
deriving DecidableEq, Repr

/-- index::File::index_checksum: ObjectId::from of the trailing hash_len bytes;
the digest is modelled by the bytes it was built from. -/
def IndexFile.index_checksum (f : IndexFile) : List Byte :=
  f.data.drop (f.data.length - f.hash_len)

/-- index::File::pack_checksum: the hash_len bytes starting at
len - hash_len * 2. -/
def IndexFile.pack_checksum (f : IndexFile) : List Byte :=
  let frm := f.data.length - f.hash_len * 2
  (f.data.drop frm).take f.hash_len

/-- Modelled from the spec: crate::verify::checksum::Error (the source of this
error type is not part of the repository slice): a checksum verification fails
by digest mismatch or by cooperative interruption. -/
inductive ChecksumError where
  | Mismatch (actual : List Byte) (expected : List Byte)
  | Interrupted
deriving DecidableEq, Repr

/-- Modelled from the spec: crate::verify::checksum_on_disk_or_mmap (not part
of the repository slice) recomputes a digest over the file bytes and compares
it to the expected digest; it returns the checksum on match and fails with a
Checksum error on mismatch, or with an interruption variant when the
should_interrupt flag is set. -/
def checksum_on_disk_or_mmap (hashFn : List Byte → List Byte)
    (data : List Byte) (expected : List Byte) (should_interrupt : Bool) :
    Except ChecksumError (List Byte) :=
  if should_interrupt then Except.error ChecksumError.Interrupted
  else if hashFn data = expected then Except.ok expected
  else Except.error (ChecksumError.Mismatch (hashFn data) expected)

/-- index::File::verify_checksum, with the digest function explicit. -/
def IndexFile.verify_checksum (f : IndexFile) (hashFn : List Byte → List Byte)
    (should_interrupt : Bool) : Except ChecksumError (List Byte) :=
  checksum_on_disk_or_mmap hashFn f.data f.index_checksum should_interrupt

/-- index::traverse::Error, reduced to the variants this development needs:
the conversion target of a checksum error (Into::into in verify_integrity) and
a wrapper for everything a pack traversal can produce. -/
inductive TraverseError (E : Type) where
  | Checksum (err : ChecksumError)
  | Traversal (err : E)
deriving DecidableEq, Repr

/-- index::File::verify_integrity.  The pack traversal (index::File::traverse)
is an external collaborator, passed in as `traverseFn` together with the opaque
pack context it consumes; the digest function of verify_checksum is `hashFn`. -/
def verify_integrity {E Outc Prog PackCtx : Type} (f : IndexFile)
    (hashFn : List Byte → List Byte) (pack : Option PackCtx)
    (traverseFn : PackCtx → Option Nat → Except (TraverseError E) (List Byte × Outc × Prog))
    (thread_limit : Option Nat) (progress : Prog) (should_interrupt : Bool) :
    Except (TraverseError E) (List Byte × Option Outc × Prog) :=
  match pack with
  | some ctx =>
      (traverseFn ctx thread_limit).map (fun r => (r.1, some r.2.1, r.2.2))
  | none =>
      match f.verify_checksum hashFn should_interrupt with
      | Except.ok id => Except.ok (id, none, progress)
      | Except.error e => Except.error (TraverseError.Checksum e)

/-- Follows the wording of the spec, for comparison with verify_integrity: without
pack context, verify_integrity degrades to verify_checksum alone, returning
(checksum, None, progress) on success and the checksum error converted into
the traversal error type on failure. -/
def verify_integrity_no_pack_spec {E Outc Prog : Type} (f : IndexFile)
    (hashFn : List Byte → List Byte) (progress : Prog) (should_interrupt : Bool) :
    Except (TraverseError E) (List Byte × Option Outc × Prog) :=
  match f.verify_checksum hashFn should_interrupt with
  | Except.ok id => Except.ok (id, none, progress)
  | Except.error e => Except.error (TraverseError.Checksum e)

example : AllObjects.new { indices := [], loose_dbs := [] } = none := by decide

example :
    (AllObjects.new { indices := [{ entries := [5] }], loose_dbs := [] }).map (panicsF 3) =
      some true := by decide

example :
    (AllObjects.new
        { indices := [{ entries := [5, 7] }, { entries := [9] }],
          loose_dbs := [{ iterSeq := [LooseItem.ok 3, LooseItem.err 2] }] }).map
        (collectF 10) =
      some (some [LooseItem.ok 5, LooseItem.ok 7, LooseItem.ok 9,
        LooseItem.ok 3, LooseItem.err 2]) := by decide

/-! ## One-step behaviour of nextF at successor fuel -/

theorem nextF_succ_depleted (f n : Nat) (L : List LooseStore) :
    nextF (f + 1) ⟨State.depleted, n, L⟩ = StepResult.done ⟨State.depleted, n, L⟩ := by
  simp [nextF]

theorem nextF_succ_pack_yield (f : Nat) (it : List IndexLookup) (idx : IndexLookup)
    (e nobj n : Nat) (L : List LooseStore) (h : e < nobj) :
    nextF (f + 1) ⟨State.pack it idx e nobj, n, L⟩ =
      StepResult.yield (LooseItem.ok (idx.oid_at_index e))
        ⟨State.pack it idx (e + 1) nobj, n, L⟩ := by
  simp [nextF, h]

theorem nextF_succ_pack_advance (f : Nat) (it : List IndexLookup)
    (idx2 idx : IndexLookup) (e nobj n : Nat) (L : List LooseStore) (h : ¬ e < nobj) :
    nextF (f + 1) ⟨State.pack (idx2 :: it) idx e nobj, n, L⟩ =
      nextF f ⟨State.pack it idx2 0 idx2.num_objects, n, L⟩ := by
  simp [nextF, h]

theorem nextF_succ_pack_to_loose (f : Nat) (idx : IndexLookup) (e nobj n : Nat)
    (L : List LooseStore) (db : LooseStore) (h : ¬ e < nobj) (hdb : L[0]? = some db) :
    nextF (f + 1) ⟨State.pack [] idx e nobj, n, L⟩ =
      nextF f ⟨State.loose db.iter 0, n, L⟩ := by
  simp [nextF, h, hdb]

theorem nextF_succ_pack_panic (f : Nat) (idx : IndexLookup) (e nobj n : Nat)
    (L : List LooseStore) (h : ¬ e < nobj) (hdb : L[0]? = none) :
    nextF (f + 1) ⟨State.pack [] idx e nobj, n, L⟩ = StepResult.panicked := by
  simp [nextF, h, hdb]

theorem nextF_succ_loose_yield (f : Nat) (x : LooseItem) (it : List LooseItem)
    (i n : Nat) (L : List LooseStore) :
    nextF (f + 1) ⟨State.loose (x :: it) i, n, L⟩ =
      StepResult.yield x ⟨State.loose it i, n, L⟩ := by
  simp [nextF]

theorem nextF_succ_loose_advance (f i n : Nat) (L : List LooseStore)
    (db : LooseStore) (hdb : L[i + 1]? = some db) :
    nextF (f + 1) ⟨State.loose [] i, n, L⟩ =
      nextF f ⟨State.loose db.iter (i + 1), n, L⟩ := by
  simp [nextF, hdb]

theorem nextF_succ_loose_done (f i n : Nat) (L : List LooseStore)
    (hdb : L[i + 1]? = none) :
    nextF (f + 1) ⟨State.loose [] i, n, L⟩ =
      StepResult.done ⟨State.depleted, n, L⟩ := by
  simp [nextF, hdb]

/-! ## Fuel irrelevance: any fuel above the source bound gives the same step -/

theorem nextF_irrel : ∀ (k : Nat) (a : AllObjects) (f g : Nat),
    a.remainingSources ≤ k → a.remainingSources < f → a.remainingSources < g →
    nextF f a = nextF g a := by
  intro k
  induction k with
  | zero =>
    intro a f g hk hf hg
    obtain ⟨st, n, L⟩ := a
    cases f with
    | zero => exact absurd hf (Nat.not_lt_zero _)
    | succ f =>
      cases g with
      | zero => exact absurd hg (Nat.not_lt_zero _)
      | succ g =>
        cases st with
        | depleted => rw [nextF_succ_depleted, nextF_succ_depleted]
        | pack it idx e nobj =>
          exact absurd hk (by simp only [AllObjects.remainingSources]; omega)
        | loose iter i =>
          simp only [AllObjects.remainingSources] at hk
          cases iter with
          | cons x rest => rw [nextF_succ_loose_yield, nextF_succ_loose_yield]
          | nil =>
            have hnone : L[i + 1]? = none := List.getElem?_eq_none (by omega)
            rw [nextF_succ_loose_done _ _ _ _ hnone, nextF_succ_loose_done _ _ _ _ hnone]
  | succ k ih =>
    intro a f g hk hf hg
    obtain ⟨st, n, L⟩ := a
    cases f with
    | zero => exact absurd hf (Nat.not_lt_zero _)
    | succ f =>
      cases g with
      | zero => exact absurd hg (Nat.not_lt_zero _)
      | succ g =>
        cases st with
        | depleted => rw [nextF_succ_depleted, nextF_succ_depleted]
        | pack it idx e nobj =>
          by_cases he : e < nobj
          · rw [nextF_succ_pack_yield _ _ _ _ _ _ _ he,
              nextF_succ_pack_yield _ _ _ _ _ _ _ he]
          · cases it with
            | cons idx2 rest =>
              rw [nextF_succ_pack_advance _ _ _ _ _ _ _ _ he,
                nextF_succ_pack_advance _ _ _ _ _ _ _ _ he]
              refine ih _ f g ?_ ?_ ?_ <;>
                simp only [AllObjects.remainingSources, List.length_cons] at hk hf hg ⊢ <;>
                omega
            | nil =>
              cases hdb : L[0]? with
              | none =>
                rw [nextF_succ_pack_panic _ _ _ _ _ _ he hdb,
                  nextF_succ_pack_panic _ _ _ _ _ _ he hdb]
              | some db =>
                rw [nextF_succ_pack_to_loose _ _ _ _ _ _ _ he hdb,
                  nextF_succ_pack_to_loose _ _ _ _ _ _ _ he hdb]
                refine ih _ f g ?_ ?_ ?_ <;>
                  simp only [AllObjects.remainingSources, List.length_cons] at hk hf hg ⊢ <;>
                  omega
        | loose iter i =>
          cases iter with
          | cons x rest => rw [nextF_succ_loose_yield, nextF_succ_loose_yield]
          | nil =>
            cases hdb : L[i + 1]? with
            | none =>
              rw [nextF_succ_loose_done _ _ _ _ hdb, nextF_succ_loose_done _ _ _ _ hdb]
            | some db =>
              have hlt : i + 1 < L.length := (List.getElem?_eq_some.mp hdb).1
              rw [nextF_succ_loose_advance _ _ _ _ _ hdb,
                nextF_succ_loose_advance _ _ _ _ _ hdb]
              refine ih _ f g ?_ ?_ ?_ <;>
                simp only [AllObjects.remainingSources] at hk hf hg ⊢ <;> omega

theorem nextF_eq_next (a : AllObjects) (f : Nat) (h : a.remainingSources < f) :
    nextF f a = AllObjects.next a := by
  have := nextF_irrel a.remainingSources a f (sourceBound a) le_rfl h
    (by simp [sourceBound])
  simpa [AllObjects.next] using this

/-! ## One-step behaviour of AllObjects::next -/

theorem next_depleted_eq (n : Nat) (L : List LooseStore) :
    AllObjects.next ⟨State.depleted, n, L⟩ = StepResult.done ⟨State.depleted, n, L⟩ :=
  nextF_succ_depleted _ n L

theorem next_pack_yield (it : List IndexLookup) (idx : IndexLookup)
    (e nobj n : Nat) (L : List LooseStore) (h : e < nobj) :
    AllObjects.next ⟨State.pack it idx e nobj, n, L⟩ =
      StepResult.yield (LooseItem.ok (idx.oid_at_index e))
        ⟨State.pack it idx (e + 1) nobj, n, L⟩ :=
  nextF_succ_pack_yield _ it idx e nobj n L h

theorem next_pack_advance (it : List IndexLookup) (idx2 idx : IndexLookup)
    (e nobj n : Nat) (L : List LooseStore) (h : ¬ e < nobj) :
    AllObjects.next ⟨State.pack (idx2 :: it) idx e nobj, n, L⟩ =
      AllObjects.next ⟨State.pack it idx2 0 idx2.num_objects, n, L⟩ := by
  have h1 := nextF_succ_pack_advance ((idx2 :: it).length + 1 + L.length)
    it idx2 idx e nobj n L h
  have h2 := nextF_eq_next ⟨State.pack it idx2 0 idx2.num_objects, n, L⟩
    ((idx2 :: it).length + 1 + L.length)
    (by simp only [AllObjects.remainingSources, List.length_cons]; omega)
  exact h1.trans h2

theorem next_pack_to_loose (idx : IndexLookup) (e nobj n : Nat)
    (L : List LooseStore) (db : LooseStore) (h : ¬ e < nobj) (hdb : L[0]? = some db) :
    AllObjects.next ⟨State.pack [] idx e nobj, n, L⟩ =
      AllObjects.next ⟨State.loose db.iter 0, n, L⟩ := by
  have h1 := nextF_succ_pack_to_loose (([] : List IndexLookup).length + 1 + L.length)
    idx e nobj n L db h hdb
  have h2 := nextF_eq_next ⟨State.loose db.iter 0, n, L⟩
    (([] : List IndexLookup).length + 1 + L.length)
    (by simp only [AllObjects.remainingSources]; omega)
  exact h1.trans h2

theorem next_pack_panic (idx : IndexLookup) (e nobj n : Nat) (L : List LooseStore)
    (h : ¬ e < nobj) (hdb : L[0]? = none) :
    AllObjects.next ⟨State.pack [] idx e nobj, n, L⟩ = StepResult.panicked :=
  nextF_succ_pack_panic _ idx e nobj n L h hdb

theorem next_loose_yield (x : LooseItem) (it : List LooseItem) (i n : Nat)
    (L : List LooseStore) :
    AllObjects.next ⟨State.loose (x :: it) i, n, L⟩ =
      StepResult.yield x ⟨State.loose it i, n, L⟩ :=
  nextF_succ_loose_yield _ x it i n L

theorem next_loose_advance (i n : Nat) (L : List LooseStore) (db : LooseStore)
    (hdb : L[i + 1]? = some db) :
    AllObjects.next ⟨State.loose [] i, n, L⟩ =
      AllObjects.next ⟨State.loose db.iter (i + 1), n, L⟩ := by
  have hlt : i + 1 < L.length := (List.getElem?_eq_some.mp hdb).1
  have h1 := nextF_succ_loose_advance (L.length - i) i n L db hdb
  have h2 := nextF_eq_next ⟨State.loose db.iter (i + 1), n, L⟩ (L.length - i)
    (by simp only [AllObjects.remainingSources]; omega)
  exact h1.trans h2

theorem next_loose_done (i n : Nat) (L : List LooseStore) (hdb : L[i + 1]? = none) :
    AllObjects.next ⟨State.loose [] i, n, L⟩ =
      StepResult.done ⟨State.depleted, n, L⟩ :=
  nextF_succ_loose_done _ i n L hdb

/-! ## next never exhausts its fuel bound -/

theorem next_ne_fuelOut : ∀ (k : Nat) (a : AllObjects), a.remainingSources ≤ k →
    AllObjects.next a ≠ StepResult.fuelOut := by
  intro k
  induction k with
  | zero =>
    intro a hk
    obtain ⟨st, n, L⟩ := a
    cases st with
    | depleted => rw [next_depleted_eq]; simp
    | pack it idx e nobj =>
      exact absurd hk (by simp only [AllObjects.remainingSources]; omega)
    | loose iter i =>
      simp only [AllObjects.remainingSources] at hk
      cases iter with
      | cons x rest => rw [next_loose_yield]; simp
      | nil =>
        rw [next_loose_done _ _ _ (List.getElem?_eq_none (by omega))]; simp
  | succ k ih =>
    intro a hk
    obtain ⟨st, n, L⟩ := a
    cases st with
    | depleted => rw [next_depleted_eq]; simp
    | pack it idx e nobj =>
      by_cases he : e < nobj
      · rw [next_pack_yield _ _ _ _ _ _ he]; simp
      · cases it with
        | cons idx2 rest =>
          rw [next_pack_advance _ _ _ _ _ _ _ he]
          refine ih _ ?_
          simp only [AllObjects.remainingSources, List.length_cons] at hk ⊢
          omega
        | nil =>
          cases hdb : L[0]? with
          | none => rw [next_pack_panic _ _ _ _ _ he hdb]; simp
          | some db =>
            rw [next_pack_to_loose _ _ _ _ _ _ he hdb]
            refine ih _ ?_
            simp only [AllObjects.remainingSources] at hk ⊢
            omega
    | loose iter i =>
      cases iter with
      | cons x rest => rw [next_loose_yield]; simp
      | nil =>
        cases hdb : L[i + 1]? with
        | none => rw [next_loose_done _ _ _ hdb]; simp
        | some db =>
          have hlt : i + 1 < L.length := (List.getElem?_eq_some.mp hdb).1
          rw [next_loose_advance _ _ _ _ hdb]
          refine ih _ ?_
          simp only [AllObjects.remainingSources] at hk ⊢
          omega

/-- C10: AllObjects::next terminates for every iterator state.  Fuel equal to
the number of remaining unvisited sources plus one suffices for the internal
recursion of nextF (each recursive call strictly decreases that number), and
the call always returns a real step, never the out-of-fuel marker. -/
theorem allObjects_next_terminates (a : AllObjects) (f : Nat)
    (h : a.remainingSources < f) :
    nextF f a = AllObjects.next a ∧ AllObjects.next a ≠ StepResult.fuelOut :=
  ⟨nextF_eq_next a f h, next_ne_fuelOut a.remainingSources a le_rfl⟩

/-- Witness for C10 at a concrete state: one exhausted pack index in front of
one loose store. -/
theorem allObjects_next_terminates_witness :
    nextF 4 ⟨State.pack [] { entries := [5] } 1 1, 1, [{ iterSeq := [] }]⟩ =
        AllObjects.next ⟨State.pack [] { entries := [5] } 1 1, 1, [{ iterSeq := [] }]⟩ ∧
      AllObjects.next ⟨State.pack [] { entries := [5] } 1 1, 1, [{ iterSeq := [] }]⟩ ≠
        StepResult.fuelOut :=
  allObjects_next_terminates ⟨State.pack [] { entries := [5] } 1 1, 1, [{ iterSeq := [] }]⟩
    4 (by decide)

/-- C6: once the iterator state is Depleted, next() returns end-of-sequence
with the iterator unchanged (so the state remains Depleted), and no further
item is ever collected. -/
theorem allObjects_depleted_stays_depleted (a : AllObjects)
    (h : a.state = State.depleted) :
    AllObjects.next a = StepResult.done a ∧ ∀ f : Nat, collectF (f + 1) a = some [] := by
  obtain ⟨st, n, L⟩ := a
  have hst : st = State.depleted := h
  subst hst
  refine ⟨next_depleted_eq n L, fun f => ?_⟩
  simp [collectF, next_depleted_eq n L]

/-- Witness for C6 at a concrete depleted iterator. -/
theorem allObjects_depleted_stays_depleted_witness :
    AllObjects.next ⟨State.depleted, 3, [{ iterSeq := [LooseItem.ok 1] }]⟩ =
        StepResult.done ⟨State.depleted, 3, [{ iterSeq := [LooseItem.ok 1] }]⟩ ∧
      collectF 5 ⟨State.depleted, 3, [{ iterSeq := [LooseItem.ok 1] }]⟩ = some [] := by
  have h := allObjects_depleted_stays_depleted
    ⟨State.depleted, 3, [{ iterSeq := [LooseItem.ok 1] }]⟩ rfl
  exact ⟨h.1, h.2 4⟩

/-- C5: immediately after a successful construction, size_hint is the
saturating sum of the object counts of the indices of the snapshot as lower bound
and no upper bound. -/
theorem size_hint_after_new (s : Snapshot) (a : AllObjects)
    (h : AllObjects.new s = some a) :
    AllObjects.size_hint a =
      (s.indices.foldl (fun dbc index => satAddUsize dbc index.num_objects) 0, none) := by
  cases hs : s.indices with
  | nil =>
    cases hdb : s.loose_dbs[0]? with
    | none =>
      simp only [AllObjects.new, hs, hdb] at h
      cases h
    | some db =>
      simp only [AllObjects.new, hs, hdb, Option.some.injEq] at h
      subst h
      simp [AllObjects.size_hint, hs]
  | cons idx rest =>
    simp only [AllObjects.new, hs, Option.some.injEq] at h
    subst h
    simp [AllObjects.size_hint, hs]

/-- Witness for C5: a snapshot with one index of two objects. -/
theorem size_hint_after_new_witness :
    AllObjects.size_hint ⟨State.pack [] { entries := [4, 6] } 0 2, 2, [{ iterSeq := [] }]⟩ =
      (2, none) := by
  rw [size_hint_after_new
    { indices := [{ entries := [4, 6] }], loose_dbs := [{ iterSeq := [] }] }
    ⟨State.pack [] { entries := [4, 6] } 0 2, 2, [{ iterSeq := [] }]⟩ (by decide)]
  decide

/-- C2 counterexample: with no pack indices and no loose stores, constructing
the iterator does not succeed: AllObjects::new panics (the expect on the first
loose store fails), so no degenerate empty iterator is ever returned. -/
theorem allObjects_new_empty_panics :
    AllObjects.new { indices := [], loose_dbs := [] } = none := by decide

/-- C2 (amended): with no pack indices and no loose stores, construction
panics via `expect("at least one loose db")` instead of returning an empty
iterator, and the transition to the Loose state after the last pack index is
exhausted likewise panics whenever the loose-store list is empty. -/
theorem allObjects_empty_requires_loose_store (idx : IndexLookup) (e nobj num : Nat)
    (h : ¬ e < nobj) :
    AllObjects.new { indices := [], loose_dbs := [] } = none ∧
      AllObjects.next ⟨State.pack [] idx e nobj, num, []⟩ = StepResult.panicked := by
  refine ⟨by decide, next_pack_panic idx e nobj num [] h rfl⟩

/-- Witness for the amended C2 at a concrete exhausted pack state. -/
theorem allObjects_empty_requires_loose_store_witness :
    AllObjects.new { indices := [], loose_dbs := [] } = none ∧
      AllObjects.next ⟨State.pack [] { entries := [5] } 1 1, 1, []⟩ =
        StepResult.panicked :=
  allObjects_empty_requires_loose_store { entries := [5] } 1 1 1 (by decide)

/-! ## Collecting the full iteration sequence -/

theorem collectF_succ_congr (a b : AllObjects)
    (h : AllObjects.next a = AllObjects.next b) (f : Nat) :
    collectF (f + 1) a = collectF (f + 1) b := by
  simp only [collectF]
  rw [h]

theorem collectF_loose_items (it : List LooseItem) (i num : Nat)
    (L : List LooseStore) (tail : List LooseItem)
    (h : ∃ f, collectF f ⟨State.loose [] i, num, L⟩ = some tail) :
    ∃ f, collectF f ⟨State.loose it i, num, L⟩ = some (it ++ tail) := by
  induction it with
  | nil => simpa using h
  | cons x rest ih =>
    obtain ⟨f, hf⟩ := ih
    refine ⟨f + 1, ?_⟩
    simp only [collectF, next_loose_yield x rest i num L]
    rw [hf]
    simp

theorem collectF_loose_from (k : Nat) : ∀ (i num : Nat) (L : List LooseStore),
    L.length - i ≤ k →
    ∃ f, collectF f ⟨State.loose [] i, num, L⟩ =
      some ((L.drop (i + 1)).map LooseStore.iterSeq).flatten := by
  induction k with
  | zero =>
    intro i num L hk
    refine ⟨1, ?_⟩
    have hnone : L[i + 1]? = none := List.getElem?_eq_none (by omega)
    have hdrop : L.drop (i + 1) = [] := List.drop_eq_nil_of_le (by omega)
    simp [collectF, next_loose_done i num L hnone, hdrop]
  | succ k ih =>
    intro i num L hk
    cases hdb : L[i + 1]? with
    | none =>
      refine ⟨1, ?_⟩
      have hlen : L.length ≤ i + 1 := List.getElem?_eq_none_iff.mp hdb
      have hdrop : L.drop (i + 1) = [] := List.drop_eq_nil_of_le hlen
      simp [collectF, next_loose_done i num L hdb, hdrop]
    | some db =>
      obtain ⟨hlt, hval⟩ := List.getElem?_eq_some.mp hdb
      have hrec := ih (i + 1) num L (by omega)
      obtain ⟨f, hf⟩ := collectF_loose_items db.iter (i + 1) num L _ hrec
      cases f with
      | zero => simp [collectF] at hf
      | succ f =>
        refine ⟨f + 1, ?_⟩
        rw [collectF_succ_congr _ _ (next_loose_advance i num L db hdb) f, hf]
        have hcons : L.drop (i + 1) = db :: L.drop (i + 1 + 1) := by
          rw [List.drop_eq_getElem_cons hlt, hval]
        rw [hcons]
        simp [LooseStore.iter]

theorem collectF_pack_exhausted_nil (idx : IndexLookup) (e num : Nat)
    (L : List LooseStore) (hL : L ≠ []) (he : ¬ e < idx.num_objects) :
    ∃ f, collectF f ⟨State.pack [] idx e idx.num_objects, num, L⟩ =
      some ((L.map LooseStore.iterSeq).flatten) := by
  obtain ⟨db, tl, rfl⟩ : ∃ db tl, L = db :: tl := by
    cases L with
    | nil => exact absurd rfl hL
    | cons db tl => exact ⟨db, tl, rfl⟩
  have hdb : (db :: tl)[0]? = some db := by simp
  have hrec := collectF_loose_from (db :: tl).length 0 num (db :: tl) (by omega)
  obtain ⟨f, hf⟩ := collectF_loose_items db.iter 0 num (db :: tl) _ hrec
  cases f with
  | zero => simp [collectF] at hf
  | succ f =>
    refine ⟨f + 1, ?_⟩
    rw [collectF_succ_congr _ _ (next_pack_to_loose idx e _ num _ db he hdb) f, hf]
    simp [LooseStore.iter]

theorem collectF_pack : ∀ (indices : List IndexLookup) (k : Nat)
    (idx : IndexLookup) (e num : Nat) (L : List LooseStore),
    L ≠ [] → idx.num_objects - e ≤ k →
    ∃ f, collectF f ⟨State.pack indices idx e idx.num_objects, num, L⟩ =
      some (((idx.entries.drop e).map LooseItem.ok) ++
        (((indices.map IndexLookup.entries).flatten).map LooseItem.ok) ++
        ((L.map LooseStore.iterSeq).flatten)) := by
  intro indices
  induction indices with
  | nil =>
    intro k
    induction k with
    | zero =>
      intro idx e num L hL hk
      have he : ¬ e < idx.num_objects := by omega
      have hde : idx.entries.drop e = [] := List.drop_eq_nil_of_le (by
        simp only [IndexLookup.num_objects] at hk
        omega)
      obtain ⟨f, hf⟩ := collectF_pack_exhausted_nil idx e num L hL he
      refine ⟨f, ?_⟩
      rw [hf]
      simp [hde]
    | succ k ihk =>
      intro idx e num L hL hk
      by_cases he : e < idx.num_objects
      · obtain ⟨f, hf⟩ := ihk idx (e + 1) num L hL (by
          simp only [IndexLookup.num_objects] at hk ⊢
          omega)
        refine ⟨f + 1, ?_⟩
        simp only [collectF, next_pack_yield [] idx e idx.num_objects num L he]
        rw [hf]
        have hlt : e < idx.entries.length := by
          simpa [IndexLookup.num_objects] using he
        have hcons : idx.entries.drop e = idx.entries[e] :: idx.entries.drop (e + 1) :=
          List.drop_eq_getElem_cons hlt
        have hoid : idx.oid_at_index e = idx.entries[e] := by
          simp [IndexLookup.oid_at_index, List.getElem?_eq_getElem hlt]
        rw [hcons, hoid]
        simp only [Option.map_some, Option.map_some', List.map_cons, List.cons_append]
      · have hde : idx.entries.drop e = [] := List.drop_eq_nil_of_le (by
          simp only [IndexLookup.num_objects] at he
          omega)
        obtain ⟨f, hf⟩ := collectF_pack_exhausted_nil idx e num L hL he
        refine ⟨f, ?_⟩
        rw [hf]
        simp [hde]
  | cons idx2 rest ih =>
    intro k
    induction k with
    | zero =>
      intro idx e num L hL hk
      have he : ¬ e < idx.num_objects := by omega
      have hde : idx.entries.drop e = [] := List.drop_eq_nil_of_le (by
        simp only [IndexLookup.num_objects] at hk
        omega)
      obtain ⟨f, hf⟩ := ih idx2.num_objects idx2 0 num L hL (by omega)
      cases f with
      | zero => simp [collectF] at hf
      | succ f =>
        refine ⟨f + 1, ?_⟩
        rw [collectF_succ_congr _ _
          (next_pack_advance rest idx2 idx e idx.num_objects num L he) f, hf]
        simp [hde, List.append_assoc]
    | succ k ihk =>
      intro idx e num L hL hk
      by_cases he : e < idx.num_objects
      · obtain ⟨f, hf⟩ := ihk idx (e + 1) num L hL (by
          simp only [IndexLookup.num_objects] at hk ⊢
          omega)
        refine ⟨f + 1, ?_⟩
        simp only [collectF,
          next_pack_yield (idx2 :: rest) idx e idx.num_objects num L he]
        rw [hf]
        have hlt : e < idx.entries.length := by
          simpa [IndexLookup.num_objects] using he
        have hcons : idx.entries.drop e = idx.entries[e] :: idx.entries.drop (e + 1) :=
          List.drop_eq_getElem_cons hlt
        have hoid : idx.oid_at_index e = idx.entries[e] := by
          simp [IndexLookup.oid_at_index, List.getElem?_eq_getElem hlt]
        rw [hcons, hoid]
        simp only [Option.map_some, Option.map_some', List.map_cons, List.cons_append]
      · have hde : idx.entries.drop e = [] := List.drop_eq_nil_of_le (by
          simp only [IndexLookup.num_objects] at he
          omega)
        obtain ⟨f, hf⟩ := ih idx2.num_objects idx2 0 num L hL (by omega)
        cases f with
        | zero => simp [collectF] at hf
        | succ f =>
          refine ⟨f + 1, ?_⟩
          rw [collectF_succ_congr _ _
            (next_pack_advance rest idx2 idx e idx.num_objects num L he) f, hf]
          simp [hde, List.append_assoc]

/-- num_objects is definitionally the entry count, in mapped form. -/
theorem map_num_objects_entries (l : List IndexLookup) :
    l.map IndexLookup.num_objects = l.map (fun i => i.entries.length) := rfl

/-- C1 (amended): provided the snapshot has at least one loose store (the code
panics via expect at the pack-to-loose transition, and at construction, when
the loose-store list is empty), the iterator yields exactly the packed objects
followed by the loose items and then ends: the collected sequence is the
concatenation of the entries of every pack index in ranked order, each wrapped
in Ok, followed by the items of each loose store; its length is the packed count
plus the total loose count, and its first N elements are the packed part. -/
theorem allObjects_iteration_order (s : Snapshot) (hL : s.loose_dbs ≠ []) :
    ∃ a, AllObjects.new s = some a ∧
      ∃ f l, collectF f a = some l ∧
        l = (((s.indices.map IndexLookup.entries).flatten).map LooseItem.ok) ++
          ((s.loose_dbs.map LooseStore.iterSeq).flatten) ∧
        l.length = (s.indices.map IndexLookup.num_objects).sum +
          (s.loose_dbs.map (fun d => d.iterSeq.length)).sum ∧
        l.take ((s.indices.map IndexLookup.num_objects).sum) =
          (((s.indices.map IndexLookup.entries).flatten).map LooseItem.ok) := by
  cases hs : s.indices with
  | nil =>
    obtain ⟨db, tl, hLdb⟩ : ∃ db tl, s.loose_dbs = db :: tl := by
      cases hl2 : s.loose_dbs with
      | nil => exact absurd hl2 hL
      | cons db tl => exact ⟨db, tl, rfl⟩
    have hnew : AllObjects.new s = some ⟨State.loose db.iter 0, 0, s.loose_dbs⟩ := by
      simp [AllObjects.new, hs, hLdb]
    refine ⟨⟨State.loose db.iter 0, 0, s.loose_dbs⟩, hnew, ?_⟩
    have hrec := collectF_loose_from s.loose_dbs.length 0 0 s.loose_dbs (by omega)
    obtain ⟨f, hf⟩ := collectF_loose_items db.iter 0 0 s.loose_dbs _ hrec
    refine ⟨f, _, hf, ?_, ?_, ?_⟩
    · simp [hs, hLdb, LooseStore.iter]
    · simp [hs, hLdb, LooseStore.iter, List.length_flatten, List.map_map, Function.comp_def]
    · simp [hs]
  | cons idx rest =>
    have hnew : AllObjects.new s = some ⟨State.pack rest idx 0 idx.num_objects,
        s.indices.foldl (fun dbc index => satAddUsize dbc index.num_objects) 0,
        s.loose_dbs⟩ := by
      simp [AllObjects.new, hs]
    refine ⟨_, hnew, ?_⟩
    obtain ⟨f, hf⟩ := collectF_pack rest idx.num_objects idx 0
      (s.indices.foldl (fun dbc index => satAddUsize dbc index.num_objects) 0)
      s.loose_dbs hL (by omega)
    refine ⟨f, _, hf, ?_, ?_, ?_⟩
    · simp [hs, List.append_assoc]
    · simp [List.length_flatten, List.map_map, Function.comp_def, List.length_map,
        IndexLookup.num_objects, map_num_objects_entries]
      omega
    · have hN : ((idx :: rest).map IndexLookup.num_objects).sum =
          ((idx.entries.drop 0).map LooseItem.ok ++
            ((rest.map IndexLookup.entries).flatten).map LooseItem.ok).length := by
        simp [IndexLookup.num_objects, List.length_flatten, List.map_map, Function.comp_def,
          List.length_map, map_num_objects_entries]
      rw [hN, List.take_left]
      simp

/-- C1 counterexample: a snapshot with one pack index holding one object and
no loose stores.  The iterator yields the packed object and then panics at the
transition to the loose stores instead of ending, so it does not yield exactly
N + 0 identifiers before ending. -/
theorem allObjects_iteration_counterexample :
    (AllObjects.new { indices := [{ entries := [5] }], loose_dbs := [] }).map
        (panicsF 3) = some true ∧
      (AllObjects.new { indices := [{ entries := [5] }], loose_dbs := [] }).map
        (collectF 10) = some none := by decide

/-- Witness for the amended C1: two ranked indices and one loose store with a
trailing read error. -/
theorem allObjects_iteration_order_witness :
    ∃ a, AllObjects.new
        { indices := [{ entries := [5, 7] }, { entries := [9] }],
          loose_dbs := [{ iterSeq := [LooseItem.ok 3, LooseItem.err 2] }] } = some a ∧
      ∃ f l, collectF f a = some l ∧
        l = ((([{ entries := [5, 7] }, { entries := [9] }].map
            IndexLookup.entries).flatten).map LooseItem.ok) ++
          (([{ iterSeq := [LooseItem.ok 3, LooseItem.err 2] }].map
            LooseStore.iterSeq).flatten) ∧
        l.length = ([{ entries := [5, 7] }, { entries := [9] }].map
            IndexLookup.num_objects).sum +
          ([({ iterSeq := [LooseItem.ok 3, LooseItem.err 2] } : LooseStore)].map
            (fun d => d.iterSeq.length)).sum ∧
        l.take (([{ entries := [5, 7] }, { entries := [9] }].map
            IndexLookup.num_objects).sum) =
          ((([{ entries := [5, 7] }, { entries := [9] }].map
            IndexLookup.entries).flatten).map LooseItem.ok) :=
  allObjects_iteration_order
    { indices := [{ entries := [5, 7] }, { entries := [9] }],
      loose_dbs := [{ iterSeq := [LooseItem.ok 3, LooseItem.err 2] }] }
    (by decide)

/-! ## Claims about the pack index verification functions -/

/-- C9: at Mode::HashCrc32, verify_entry is a no-op: it returns Ok with the
scratch buffer and the progress sink unchanged, for every decode and encode
function, kind, buffer and index entry — so no decode is attempted, the
scratch buffer is not written and no message is pushed. -/
theorem verify_entry_hashcrc32_noop {E O : Type}
    (decode : Kind → List Byte → Except E O) (encode : O → List Byte)
    (encode_buf : List Byte) (object_kind : Kind) (buf : List Byte)
    (index_entry : IndexEntry) (progress : List ObjectId) :
    verify_entry decode encode Mode.HashCrc32 encode_buf object_kind buf
      index_entry progress = Except.ok (encode_buf, progress) := rfl

/-- Witness for C9 at concrete inputs whose decode function always fails. -/
theorem verify_entry_hashcrc32_noop_witness :
    verify_entry (fun _ _ => (Except.error 1 : Except Nat Nat)) (fun o => [o])
        Mode.HashCrc32 [9] Kind.Tree [1, 2]
        { oid := 7, pack_offset := 0, crc32 := none } [] =
      Except.ok ([9], []) :=
  verify_entry_hashcrc32_noop (fun _ _ => (Except.error 1 : Except Nat Nat))
    (fun o => [o]) [9] Kind.Tree [1, 2]
    { oid := 7, pack_offset := 0, crc32 := none } []

/-- C4: at the decoding modes, verify_entry decodes exactly the non-Blob
kinds: Blob always returns Ok untouched; for Tree/Commit/Tag it returns the
ObjectDecode error carrying the decode failure, the kind and the identifier of
the entry exactly when decoding fails, and never an ObjectDecode error when
decoding succeeds. -/
theorem verify_entry_decode_behaviour {E O : Type}
    (decode : Kind → List Byte → Except E O) (encode : O → List Byte)
    (mode : Mode) (encode_buf : List Byte) (object_kind : Kind) (buf : List Byte)
    (index_entry : IndexEntry) (progress : List ObjectId)
    (hm : mode = Mode.HashCrc32Decode ∨ mode = Mode.HashCrc32DecodeEncode) :
    (object_kind = Kind.Blob →
      verify_entry decode encode mode encode_buf object_kind buf index_entry
        progress = Except.ok (encode_buf, progress)) ∧
    (∀ err, object_kind ≠ Kind.Blob → decode object_kind buf = Except.error err →
      verify_entry decode encode mode encode_buf object_kind buf index_entry
          progress =
        Except.error (IntegrityError.ObjectDecode err object_kind index_entry.oid)) ∧
    (∀ o, object_kind ≠ Kind.Blob → decode object_kind buf = Except.ok o →
      ∀ (err : E) (k : Kind) (i : ObjectId),
        verify_entry decode encode mode encode_buf object_kind buf index_entry
            progress ≠
          Except.error (IntegrityError.ObjectDecode err k i)) := by
  refine ⟨?_, ?_, ?_⟩
  · intro hb
    subst hb
    obtain rfl | rfl := hm <;> rfl
  · intro err hk hd
    obtain rfl | rfl := hm <;>
      cases object_kind <;>
      first
        | exact absurd rfl hk
        | simp [verify_entry, hd]
  · intro o hk hd err k i
    obtain rfl | rfl := hm <;>
      cases object_kind <;>
      first
        | exact absurd rfl hk
        | (simp only [verify_entry, hd]; split_ifs <;> simp)
        | (simp only [verify_entry, hd]; simp)

/-- Witness for C4: a commit whose decode fails yields the ObjectDecode error
with the failure, the kind and the identifier of the entry. -/
theorem verify_entry_decode_behaviour_witness :
    verify_entry (fun _ _ => (Except.error 7 : Except Nat Nat)) (fun o => [o])
        Mode.HashCrc32Decode [] Kind.Commit [1]
        { oid := 42, pack_offset := 0, crc32 := none } [] =
      Except.error (IntegrityError.ObjectDecode 7 Kind.Commit 42) :=
  (verify_entry_decode_behaviour (fun _ _ => (Except.error 7 : Except Nat Nat))
      (fun o => [o]) Mode.HashCrc32Decode [] Kind.Commit [1]
      { oid := 42, pack_offset := 0, crc32 := none } [] (Or.inl rfl)).2.1
    7 (by decide) rfl

/-- C3: at HashCrc32DecodeEncode, a decodable non-Blob object whose re-encoded
bytes differ from the original fails with ObjectEncodeMismatch carrying the
kind, the identifier of the entry, the original bytes as expected and the
re-encoded bytes as actual — unless the kind is Tree and the raw bytes contain
the ASCII sequence 100664 or 100640 anywhere, in which case the call succeeds
and pushes exactly one informational message to the progress sink. -/
theorem verify_entry_encode_mismatch {E O : Type}
    (decode : Kind → List Byte → Except E O) (encode : O → List Byte)
    (encode_buf : List Byte) (object_kind : Kind) (buf : List Byte)
    (index_entry : IndexEntry) (progress : List ObjectId) (o : O)
    (hk : object_kind ≠ Kind.Blob) (hd : decode object_kind buf = Except.ok o)
    (hne : encode o ≠ buf) :
    (object_kind = Kind.Tree →
      (containsSeq mode100664 buf || containsSeq mode100640 buf) = true →
      verify_entry decode encode Mode.HashCrc32DecodeEncode encode_buf object_kind
          buf index_entry progress =
        Except.ok (encode o, progress ++ [index_entry.oid])) ∧
    ((object_kind = Kind.Tree →
        (containsSeq mode100664 buf || containsSeq mode100640 buf) = false) →
      verify_entry decode encode Mode.HashCrc32DecodeEncode encode_buf object_kind
          buf index_entry progress =
        Except.error (IntegrityError.ObjectEncodeMismatch object_kind
          index_entry.oid buf (encode o))) := by
  cases object_kind with
  | Blob => exact absurd rfl hk
  | Tree =>
    constructor
    · intro _ hc
      simp [verify_entry, hd, hne, hc]
    · intro hc
      simp [verify_entry, hd, hne, hc rfl]
  | Commit =>
    constructor
    · intro h
      cases h
    · intro _
      simp [verify_entry, hd, hne]
  | Tag =>
    constructor
    · intro h
      cases h
    · intro _
      simp [verify_entry, hd, hne]

/-- Witness for C3: a Tree whose raw bytes are exactly the sequence 100664 is
tolerated with one informational message; re-encoding gave different bytes. -/
theorem verify_entry_encode_mismatch_witness :
    verify_entry (fun _ _ => (Except.ok 0 : Except Nat Nat)) (fun _ => [9])
        Mode.HashCrc32DecodeEncode [] Kind.Tree mode100664
        { oid := 11, pack_offset := 0, crc32 := none } [] =
      Except.ok ([9], [11]) :=
  (verify_entry_encode_mismatch (fun _ _ => (Except.ok 0 : Except Nat Nat))
      (fun _ => [9]) [] Kind.Tree mode100664
      { oid := 11, pack_offset := 0, crc32 := none } [] 0
      (by decide) rfl (by decide)).1 rfl (by decide)

/-- C7: for an index file holding its two trailing digests (2w ≤ len, with w
the digest width), pack_checksum is exactly the bytes at positions
[len-2w, len-w) and index_checksum exactly those at [len-w, len); the two are
adjacent, non-overlapping slices covering the trailing 2w bytes, and both are
pure accessors of the file data. -/
theorem checksums_are_trailing_slices (f : IndexFile)
    (h : f.hash_len * 2 ≤ f.data.length) :
    f.pack_checksum.length = f.hash_len ∧
    f.index_checksum.length = f.hash_len ∧
    (∀ i, i < f.hash_len →
      f.pack_checksum[i]? = f.data[f.data.length - f.hash_len * 2 + i]?) ∧
    (∀ i, i < f.hash_len →
      f.index_checksum[i]? = f.data[f.data.length - f.hash_len + i]?) ∧
    f.pack_checksum ++ f.index_checksum =
      f.data.drop (f.data.length - f.hash_len * 2) := by
  refine ⟨?_, ?_, ?_, ?_, ?_⟩
  · simp only [IndexFile.pack_checksum, List.length_take, List.length_drop]
    omega
  · simp only [IndexFile.index_checksum, List.length_drop]
    omega
  · intro i hi
    simp only [IndexFile.pack_checksum]
    rw [List.getElem?_take_of_lt hi, List.getElem?_drop]
  · intro i hi
    simp only [IndexFile.index_checksum]
    rw [List.getElem?_drop]
  · simp only [IndexFile.pack_checksum, IndexFile.index_checksum]
    rw [show f.data.length - f.hash_len =
      f.data.length - f.hash_len * 2 + f.hash_len from by omega]
    rw [← List.drop_drop]
    exact List.take_append_drop _ _

/-- Witness for C7 on a six-byte file with a two-byte digest. -/
theorem checksums_are_trailing_slices_witness :
    IndexFile.pack_checksum { data := [1, 2, 3, 4, 5, 6], hash_len := 2 } ++
        IndexFile.index_checksum { data := [1, 2, 3, 4, 5, 6], hash_len := 2 } =
      List.drop 2 [1, 2, 3, 4, 5, 6] ∧
    (IndexFile.pack_checksum { data := [1, 2, 3, 4, 5, 6], hash_len := 2 })[0]? =
      [1, 2, 3, 4, 5, 6][2]? ∧
    (IndexFile.index_checksum { data := [1, 2, 3, 4, 5, 6], hash_len := 2 })[0]? =
      [1, 2, 3, 4, 5, 6][4]? := by
  have h := checksums_are_trailing_slices
    { data := [1, 2, 3, 4, 5, 6], hash_len := 2 } (by decide)
  exact ⟨h.2.2.2.2, h.2.2.1 0 (by decide), h.2.2.2.1 0 (by decide)⟩

/-- C8: verify_integrity without pack context is exactly verify_checksum
lifted into the triple form (checksum, no outcome, the given progress), the
checksum error converted into the traversal error type on failure; the result
does not depend on the traversal function, so no pack traversal occurs. -/
theorem verify_integrity_without_pack {E Outc Prog PackCtx : Type}
    (f : IndexFile) (hashFn : List Byte → List Byte)
    (traverseFn : PackCtx → Option Nat →
      Except (TraverseError E) (List Byte × Outc × Prog))
    (thread_limit : Option Nat) (progress : Prog) (should_interrupt : Bool) :
    verify_integrity f hashFn (none : Option PackCtx) traverseFn thread_limit
        progress should_interrupt =
      verify_integrity_no_pack_spec f hashFn progress should_interrupt := rfl

/-- Witness for C8: on a two-byte file whose digest matches, the no-pack call
returns the checksum, no outcome and the given progress, whatever the
traversal function would have done. -/
theorem verify_integrity_without_pack_witness :
    verify_integrity { data := [1, 2], hash_len := 1 } (fun _ => [2])
        (none : Option Unit)
        ((fun _ _ => Except.error (TraverseError.Traversal 0)) :
          Unit → Option Nat → Except (TraverseError Nat) (List Byte × Nat × List Nat))
        none ([5] : List Nat) false =
      verify_integrity_no_pack_spec { data := [1, 2], hash_len := 1 }
        (fun _ => [2]) [5] false ∧
    verify_integrity_no_pack_spec { data := [1, 2], hash_len := 1 }
        (fun _ => [2]) ([5] : List Nat) false =
      (Except.ok ([2], none, [5]) :
        Except (TraverseError Nat) (List Byte × Option Nat × List Nat)) :=
  ⟨verify_integrity_without_pack { data := [1, 2], hash_len := 1 } (fun _ => [2])
    ((fun _ _ => Except.error (TraverseError.Traversal 0)) :
      Unit → Option Nat → Except (TraverseError Nat) (List Byte × Nat × List Nat))
    none [5] false, rfl⟩
